import Mathlib

/-!
Verification development for the byod-cli repository.

The development shallowly embeds the operations of the repository that the
claims concern:

* the raw job-payload codec of src/byod_cli/commands/_helpers.py
  (encryptData / decryptData);
* the result-extraction routine of src/byod_cli/commands/jobs.py
  (extractResults) together with a purely functional model of
  pathlib path resolution;
* the get command of src/byod_cli/commands/jobs.py (byodGet);
* the DEK wrapping and per-file decryption of src/byod_cli/encryption.py
  (wrapDek / unwrapDek / decryptFile);
* the KMS key-policy construction and update of
  src/byod_cli/commands/setup.py (buildKmsKeyPolicy / updatePolicy);
* the plugin file-type validation of src/byod_cli/validation.py
  (validateFilesForPlugin).

External primitives that are not part of the repository (the cryptography
package AESGCM cipher, hashlib sha256, the tarfile parser) are modelled at
the level of their documented contracts; each such definition carries a
doc comment naming the modelling choice.
-/

set_option maxRecDepth 8192

/-- Simple byte digest used by the stand-in keystream and tag functions below.
Folds a byte list into a single byte. -/
def digestByte (seed : Nat) (bs : List Nat) : Nat :=
  bs.foldl (fun a b => (a * 131 + b + 1) % 256) (seed % 256)

/-- Modelled from the spec: the AES-256-CTR keystream inside the external
AES-GCM primitive (the cryptography package, not part of this repository).
Concrete deterministic stand-in; the theorems below rely only on the facts
that the keystream is a function of the key and nonce and has the requested
length, never on its concrete values. -/
def keyStream (key nonce : List Nat) (len : Nat) : List Nat :=
  (List.range len).map
    (fun i => (digestByte 17 key + 3 * digestByte 29 nonce + 101 * i) % 256)

/-- Modelled from the spec: the 16-byte GCM authentication tag of the external
AES-GCM primitive (spec section 6: authentication_tag is 16 bytes). Concrete
deterministic stand-in; the theorems rely only on the tag being a 16-byte
function of key, nonce, associated data and ciphertext. -/
def tagBytes (key nonce : List Nat) (aad : Option (List Nat)) (ct : List Nat) : List Nat :=
  (List.range 16).map
    (fun i =>
      (digestByte 3 key + 5 * digestByte 7 nonce + 11 * digestByte 13 (aad.getD [])
        + 19 * digestByte 23 ct + 31 * i + (if aad.isSome then 1 else 0)) % 256)

/-- Errors raised by the external AESGCM primitive: InvalidTag on
authentication failure, and the ValueError raised by its parameter check
when the nonce is shorter than 8 or longer than 128 bytes. -/
inductive GcmError where
  | invalidTag
  | invalidNonceSize
  deriving DecidableEq, Repr

/-- Byte-wise xor of two byte lists (truncating to the shorter). -/
def xorBytes (xs ys : List Nat) : List Nat :=
  List.zipWith (fun a b => a ^^^ b) xs ys

/-- Modelled from the spec: AESGCM.encrypt of the external cryptography
package. Wire shape per spec section 6: ciphertext of the plaintext length
followed by a 16-byte tag (the nonce is prepended by the caller). -/
def aesgcmEncrypt (key nonce pt : List Nat) (aad : Option (List Nat)) : List Nat :=
  let ct := xorBytes pt (keyStream key nonce pt.length)
  ct ++ tagBytes key nonce aad ct

/-- Modelled from the spec: AESGCM.decrypt of the external cryptography
package. Validates the nonce size (ValueError outside 8..128 bytes, the
check performed by the library), treats data shorter than the 16-byte tag
as an authentication failure, and otherwise recomputes and compares the
tag, failing with InvalidTag on mismatch. -/
def aesgcmDecrypt (key nonce data : List Nat) (aad : Option (List Nat)) :
    Except GcmError (List Nat) :=
  if nonce.length < 8 ∨ 128 < nonce.length then .error .invalidNonceSize
  else if data.length < 16 then .error .invalidTag
  else
    let ct := data.take (data.length - 16)
    let tg := data.drop (data.length - 16)
    if tg = tagBytes key nonce aad ct then
      .ok (xorBytes ct (keyStream key nonce ct.length))
    else .error .invalidTag

/-- NONCE_SIZE from src/byod_cli/commands/_helpers.py. -/
def nonceSize : Nat := 12

/-- Model of _encrypt_data from src/byod_cli/commands/_helpers.py: emits
nonce followed by ciphertext-with-tag, no associated data. The fresh
12-byte random nonce drawn by os.urandom is passed explicitly. -/
def encryptData (plaintext key nonce : List Nat) : List Nat :=
  nonce ++ aesgcmEncrypt key nonce plaintext none

/-- Model of _decrypt_data from src/byod_cli/commands/_helpers.py: slices
the first 12 bytes as the nonce (Python slicing, total on short inputs) and
hands the rest to AESGCM.decrypt with no associated data. -/
def decryptData (encrypted key : List Nat) : Except GcmError (List Nat) :=
  aesgcmDecrypt key (encrypted.take nonceSize) (encrypted.drop nonceSize) none

deriving instance DecidableEq for Except

/-- Concrete 32-byte key used by closed witnesses and counterexamples. -/
def keyW : List Nat := List.replicate 32 7

/-- Concrete 12-byte nonce used by closed witnesses. -/
def nonceW : List Nat := List.replicate 12 3

/-- Absolute filesystem paths, modelled as the list of path segments below
the root. pathlib resolution is modelled purely on segments; symbolic links
are outside the model. -/
structure AbsPath where
  segs : List String
  deriving DecidableEq, Repr

/-- Split a character list on a separator character; kernel-reducible
replacement for String.splitOn restricted to a one-character separator. -/
def splitOnChar (sep : Char) : List Char → List (List Char)
  | [] => [[]]
  | c :: rest =>
    let r := splitOnChar sep rest
    if c == sep then [] :: r
    else
      match r with
      | [] => [[c]]
      | h :: t => (c :: h) :: t

/-- Segments of a path string: split on slashes, dropping empty segments and
single-dot segments, exactly as pathlib PurePath parsing does. Parent
segments (double dot) are kept, as pathlib keeps them. -/
def splitSegments (s : String) : List String :=
  ((splitOnChar '/' s.toList).map String.mk).filter (fun t => decide (t ≠ "" ∧ t ≠ "."))

/-- Model of the pathlib slash operator base / name: a name with a leading
slash replaces the base entirely (Python semantics), otherwise the name
segments are appended. -/
def joinPath (base : AbsPath) (name : String) : AbsPath :=
  if name.toList.head? = some '/' then ⟨splitSegments name⟩
  else ⟨base.segs ++ splitSegments name⟩

/-- Resolution of double-dot segments, left to right, as Path.resolve does
on the lexical level: a double dot pops the last accumulated segment (at
the root it is a no-op). -/
def resolveSegs (acc : List String) : List String → List String
  | [] => acc
  | s :: rest => if s = ".." then resolveSegs acc.dropLast rest else resolveSegs (acc ++ [s]) rest

/-- Model of Path.resolve on an absolute path (lexical part). -/
def resolvePath (p : AbsPath) : AbsPath :=
  ⟨resolveSegs [] p.segs⟩

/-- Model of Path.is_relative_to for resolved absolute paths: the candidate
base must be a segment-wise prefix. -/
def isRelativeTo (p q : AbsPath) : Bool :=
  q.segs.isPrefixOf p.segs

/-- A member of a tar archive; the extraction guard in jobs.py consults only
the member name. -/
structure TarMember where
  name : String
  deriving DecidableEq, Repr

/-- Modelled from the spec: the result of the external tarfile parser
(Python standard library, not part of this repository) on the decrypted
payload: either a TarError at open time (bad gzip or tar data), or the
member list returned by getmembers. -/
inductive TarParse where
  | parseError
  | members (ms : List TarMember)
  deriving DecidableEq, Repr

/-- The reserved internal bookkeeping name skipped during extraction. -/
def manifestName : String := "__manifest__.json"

/-- The Sid the policy update targets. -/
def attestationSid : String := "RoleDecryptWithAttestation"

/-- The member loop of _extract_results in src/byod_cli/commands/jobs.py:
members are processed in order; the reserved manifest name is skipped; a
member whose resolved path is not relative to the resolved output directory
raises TarError, which ends the loop (nothing further is extracted).
Returns the resolved paths written, the names appended to extracted_files,
and whether the loop finished without raising. -/
def extractLoop (output : AbsPath) : List TarMember → List AbsPath × List String × Bool
  | [] => ([], [], true)
  | m :: rest =>
    if m.name = manifestName then extractLoop output rest
    else
      let mp := resolvePath (joinPath output m.name)
      if isRelativeTo mp (resolvePath output) then
        let r := extractLoop output rest
        (mp :: r.1, m.name :: r.2.1, r.2.2)
      else ([], [], false)

/-- One write performed by extraction: a resolved path, and the bytes
written there when the routine itself supplies them (the raw output.bin
fallback); archive member contents come from the archive and are not
modelled. -/
structure FileWrite where
  path : AbsPath
  content : Option (List Nat)
  deriving DecidableEq, Repr

/-- Result of _extract_results: the writes performed and the returned list
of extracted file names. -/
structure ExtractResult where
  writes : List FileWrite
  files : List String
  deriving DecidableEq, Repr

/-- The gzip sniff of _extract_results:
len(plaintext) > 2 and plaintext[0:2] == b-x1f-x8b. -/
def gzipMagic (plaintext : List Nat) : Bool :=
  decide (2 < plaintext.length) && decide (plaintext.take 2 = [31, 139])

/-- The write of the raw fallback file output.bin inside the output
directory. -/
def rawWrite (plaintext : List Nat) (output : AbsPath) : FileWrite :=
  ⟨resolvePath (joinPath output "output.bin"), some plaintext⟩

/-- Model of _extract_results from src/byod_cli/commands/jobs.py. The
plaintext is routed by the gzip sniff; in the archive branch any TarError
(at open, via the parse argument, or the path-traversal rejection inside
the loop) is caught and the whole plaintext is then written as the raw
file output.bin, keeping whatever members were already extracted. -/
def extractResults (plaintext : List Nat) (parsed : TarParse) (output : AbsPath) :
    ExtractResult :=
  if gzipMagic plaintext then
    match parsed with
    | .parseError => ⟨[rawWrite plaintext output], ["output.bin"]⟩
    | .members ms =>
      let r := extractLoop output ms
      if r.2.2 then ⟨r.1.map (fun p => ⟨p, none⟩), r.2.1⟩
      else ⟨r.1.map (fun p => ⟨p, none⟩) ++ [rawWrite plaintext output],
            r.2.1 ++ ["output.bin"]⟩
  else ⟨[rawWrite plaintext output], ["output.bin"]⟩

/-- The tenant configuration fields consulted by the get command. -/
structure TenantConfigM where
  customerKmsKeyArn : Option String
  kmsKeyArn : String
  region : String
  deriving DecidableEq, Repr

/-- Environment of one run of the get command: what the platform and AWS
would answer at each external call site. The reported job status is part
of the environment (the API exposes get_job_status); whether the command
consults it is a property of the code under verification. -/
structure GetEnv where
  jobStatus : String
  outputDownload : Except String (List Nat)
  keyDownload : Except String (List Nat)
  tenant : TenantConfigM
  kmsDecrypt : Except String (List Nat)
  parsed : TarParse
  deriving DecidableEq, Repr

/-- Outcome of the get command. -/
inductive GetOutcome where
  | apiFailure (msg : String)
  | failure (msg : String)
  | done (files : List String) (writes : List FileWrite)
  deriving DecidableEq, Repr

/-- Model of the get command (src/byod_cli/commands/jobs.py, get): download
the encrypted output and the wrapped key, unwrap the key via KMS, decrypt
with _decrypt_data, extract with _extract_results. The command performs
these steps in this order and consults no other part of the environment. -/
def byodGet (env : GetEnv) (output : AbsPath) : GetOutcome :=
  match env.outputDownload with
  | .error e => .apiFailure ("Download failed: " ++ e)
  | .ok encData =>
    match env.keyDownload with
    | .error e => .apiFailure ("Key download failed: " ++ e)
    | .ok _keyBytes =>
      match env.kmsDecrypt with
      | .error e => .failure e
      | .ok resultKey =>
        match decryptData encData resultKey with
        | .error _ => .failure "Failed"
        | .ok plaintext =>
          let r := extractResults plaintext env.parsed output
          .done r.files r.writes

/-- Concrete output directory used by closed witnesses. -/
def outW : AbsPath := ⟨["home", "user", "results"]⟩

/-- Concrete get environment whose reported job status is processing, with
all artifacts retrievable: used to exhibit that the get command does not
consult the status. -/
def envProcessing : GetEnv :=
  ⟨"processing",
   .ok (encryptData [1, 2, 3] keyW nonceW),
   .ok [9, 9, 9],
   ⟨none, "arn:aws:kms:k", "us-east-1"⟩,
   .ok keyW,
   .parseError⟩

/-- Modelled from the spec: an AESGCM ciphertext of the external
cryptography package, idealized as authenticated encryption (spec sections
4.1 and 7): decryption recovers the plaintext exactly when key, nonce and
associated data all match the values used at encryption, and fails with
the authentication error otherwise. Used for the DEK-wrapping and per-file
operations of src/byod_cli/encryption.py, whose claims are about the
authenticity guarantee, not the byte layout. Associated data is carried as
the string the source utf-8 encodes (utf-8 encoding is injective). -/
structure IdealCtext where
  key : List Nat
  nonce : List Nat
  aad : Option String
  body : List Nat
  deriving DecidableEq, Repr

/-- Ideal AESGCM.encrypt (see IdealCtext). -/
def idealEncrypt (key nonce pt : List Nat) (aad : Option String) : IdealCtext :=
  ⟨key, nonce, aad, pt⟩

/-- Ideal AESGCM.decrypt (see IdealCtext): InvalidTag unless key, nonce and
associated data all match. -/
def idealDecrypt (key nonce : List Nat) (c : IdealCtext) (aad : Option String) :
    Except GcmError (List Nat) :=
  if c.key = key ∧ c.nonce = nonce ∧ c.aad = aad then .ok c.body
  else .error .invalidTag

/-- Model of EncryptionManager.wrap_dek (src/byod_cli/encryption.py):
AEAD-encrypts the DEK under the master key with the master key id as
associated data; returns the (nonce, wrapped) pair. The fresh random nonce
is passed explicitly. -/
def wrapDek (masterKey : List Nat) (masterKeyId : String) (dek nonce : List Nat) :
    List Nat × IdealCtext :=
  (nonce, idealEncrypt masterKey nonce dek (some masterKeyId))

/-- Model of EncryptionManager.unwrap_dek (src/byod_cli/encryption.py):
AEAD-decrypts the wrapped DEK under the master key with the master key id
as associated data. -/
def unwrapDek (masterKey : List Nat) (masterKeyId : String) (nonce : List Nat)
    (wrapped : IdealCtext) : Except GcmError (List Nat) :=
  idealDecrypt masterKey nonce wrapped (some masterKeyId)

/-- Hex digit characters as produced by hexdigest. -/
def hexChar (n : Nat) : Char :=
  if n % 16 < 10 then Char.ofNat (48 + n % 16) else Char.ofNat (87 + n % 16)

/-- Modelled from the spec: hashlib.sha256 hexdigest (external primitive,
not part of this repository). Concrete deterministic stand-in producing a
64-character lowercase hex digest; the theorems rely only on determinism
and on the digest being a nonempty fixed-length string, never on concrete
digest values. -/
def sha256Hex (data : List Nat) : String :=
  let h := data.foldl (fun a b => (a * 257 + b + 1) % (2 ^ 256)) 1
  String.mk ((List.range 64).map (fun i => hexChar (h / 16 ^ i)))

/-- An encrypted file on disk as written by encrypt_file: the 12-byte nonce
followed by the AEAD body. -/
structure EncFile where
  nonce : List Nat
  body : IdealCtext
  deriving DecidableEq, Repr

/-- The two error kinds decrypt_file can raise: the AEAD authentication
error (cryptography.exceptions.InvalidTag) and the checksum-mismatch
ValueError. -/
inductive DecryptFileError where
  | authError
  | checksumMismatch (expected actual : String)
  deriving DecidableEq, Repr

/-- Python truthiness of an optional string: None and the empty string are
falsy. -/
def pyTruthy : Option String → Bool
  | none => false
  | some s => decide (s ≠ "")

/-- Model of EncryptionManager.decrypt_file (src/byod_cli/encryption.py):
AEAD-decrypts with the output file name as associated data; then, when the
expected_checksum argument is truthy, recomputes the sha256 hexdigest over
the recovered plaintext and raises the checksum-mismatch error when it
differs. -/
def decryptFile (dek : List Nat) (outputName : String) (f : EncFile)
    (expectedChecksum : Option String) : Except DecryptFileError (List Nat) :=
  match idealDecrypt dek f.nonce f.body (some outputName) with
  | .error _ => .error .authError
  | .ok pt =>
    if pyTruthy expectedChecksum then
      let actual := sha256Hex pt
      if actual ≠ expectedChecksum.getD "" then
        .error (.checksumMismatch (expectedChecksum.getD "") actual)
      else .ok pt
    else .ok pt

/-- A measurement-value entry of the attestation condition as found in the
policy JSON: either a single string or a list of strings (update_policy
normalizes a single string to a one-element list). -/
inductive PcrVal where
  | single (v : String)
  | multi (vs : List String)
  deriving DecidableEq, Repr

/-- The normalization applied by update_policy to an old measurement entry. -/
def toPcrList : PcrVal → List String
  | .single v => [v]
  | .multi vs => vs

/-- One statement of the KMS key policy, with the fields
_build_kms_key_policy emits. condAttestationPcr0 models
Condition.StringEqualsIgnoreCase: the outer layer is the presence of that
dictionary, the inner layer the presence of its PCR0 entry. -/
structure KmsStatement where
  sid : String
  effect : String
  principal : String
  action : List String
  resource : String
  condArnNotEquals : Option (String × String)
  condAttestationPcr0 : Option (Option PcrVal)
  deriving DecidableEq, Repr

/-- Model of _build_kms_key_policy (src/byod_cli/commands/setup.py): the
four-statement policy, in order CustomerAdmin, CustomerDecrypt,
RoleOperations, RoleDecryptWithAttestation. -/
def buildKmsKeyPolicy (customerAccountId roleArn : String) (pcr0Values : List String) :
    List KmsStatement :=
  [⟨"CustomerAdmin", "Allow", "arn:aws:iam::" ++ customerAccountId ++ ":root",
    ["kms:Create*", "kms:Describe*", "kms:Enable*", "kms:List*",
     "kms:Put*", "kms:Update*", "kms:Revoke*", "kms:Disable*",
     "kms:Get*", "kms:Delete*", "kms:TagResource", "kms:UntagResource",
     "kms:ScheduleKeyDeletion", "kms:CancelKeyDeletion",
     "kms:Encrypt", "kms:GenerateDataKey", "kms:GenerateDataKeyWithoutPlaintext"],
    "*", none, none⟩,
   ⟨"CustomerDecrypt", "Allow", "arn:aws:iam::" ++ customerAccountId ++ ":root",
    ["kms:Decrypt"], "*", some ("aws:PrincipalArn", roleArn), none⟩,
   ⟨"RoleOperations", "Allow", roleArn,
    ["kms:GenerateDataKey", "kms:DescribeKey"], "*", none, none⟩,
   ⟨"RoleDecryptWithAttestation", "Allow", roleArn,
    ["kms:Decrypt"], "*", none, some (some (.multi pcr0Values))⟩]

/-- The statement loop of update_policy (src/byod_cli/commands/setup.py):
finds the first statement whose Sid is RoleDecryptWithAttestation, records
the old PCR0 entry and replaces it with the new value list, then breaks.
When the statement carries no Condition.StringEqualsIgnoreCase dictionary
the assignment lands in a fresh dictionary and is lost (Python dict.get
with a default), which the model reproduces. Returns the updated
statements, the updated flag, and the recorded old entry. -/
def updateStatements (newVals : List String) :
    List KmsStatement → List KmsStatement × Bool × Option (Option PcrVal)
  | [] => ([], false, none)
  | st :: rest =>
    if st.sid = attestationSid then
      match st.condAttestationPcr0 with
      | none => (st :: rest, true, some none)
      | some old =>
        ({ st with condAttestationPcr0 := some (some (.multi newVals)) } :: rest,
         true, some old)
    else
      let r := updateStatements newVals rest
      (st :: r.1, r.2.1, r.2.2)

/-- Python set equality of two string lists (order- and
multiplicity-insensitive). -/
def sameSet (xs ys : List String) : Bool :=
  decide (∀ x ∈ xs, x ∈ ys) && decide (∀ y ∈ ys, y ∈ xs)

/-- Outcome of update_policy: the hard error when the attested-decrypt
statement is missing, the no-write already-up-to-date report, or a write
of the updated policy via put_key_policy. -/
inductive PolicyUpdateOutcome where
  | statementNotFound
  | alreadyUpToDate
  | wrote (policy : List KmsStatement)
  deriving DecidableEq, Repr

/-- Model of the policy-update core of update_policy
(src/byod_cli/commands/setup.py, lines 301-339): run the statement loop;
missing statement is a hard error; when the recorded old entry is truthy
and equals the new value set as a Python set, report already up to date
and perform no write; otherwise write the updated policy. -/
def updatePolicy (policy : List KmsStatement) (newVals : List String) :
    PolicyUpdateOutcome :=
  let r := updateStatements newVals policy
  if r.2.1 = false then .statementNotFound
  else
    match r.2.2 with
    | some (some old) =>
      if toPcrList old ≠ [] ∧ sameSet (toPcrList old) newVals = true then
        .alreadyUpToDate
      else .wrote r.1
    | _ => .wrote r.1

/-- Model of the pcr0_values fetch in setup.py:
enclave_info.get(pcr0_values) or [enclave_info[pcr0]] — a missing or empty
list falls back to the single mandatory value. -/
def fetchPcr0Values (listed : Option (List String)) (fallback : String) : List String :=
  match listed with
  | some l => if l ≠ [] then l else [fallback]
  | none => [fallback]

/-- Python str.lower on the ASCII range. -/
def pyLower (s : String) : String :=
  String.mk (s.toList.map Char.toLower)

/-- Join a list of strings with a separator; kernel-reducible replacement
for String.intercalate. -/
def joinSep (sep : String) : List String → String
  | [] => ""
  | [x] => x
  | x :: rest => x ++ sep ++ joinSep sep rest

/-- Concatenate a list of strings; kernel-reducible replacement for
String.join. -/
def joinAll (parts : List String) : String :=
  parts.foldl (fun a b => a ++ b) ""

/-- Tokens of an fnmatch glob pattern. -/
inductive GlobTok where
  | star
  | anyChar
  | cls (neg : Bool) (ranges : List (Char × Char))
  | lit (c : Char)
  deriving DecidableEq, Repr

/-- Scan the body of a bracket character class up to the closing bracket:
items are single characters or dash ranges, a dash directly before the
closing bracket is a literal. Returns none when the class is unterminated
(fnmatch then treats the opening bracket as a literal). -/
def lexClassBody : List Char → Option (List (Char × Char) × List Char)
  | [] => none
  | ']' :: rest => some ([], rest)
  | a :: '-' :: c :: rest =>
    if c = ']' then some ([(a, a), ('-', '-')], rest)
    else (lexClassBody rest).map (fun r => ((a, c) :: r.1, r.2))
  | a :: rest => (lexClassBody rest).map (fun r => ((a, a) :: r.1, r.2))

/-- Modelled from the spec: the pattern lexer of Python fnmatch.translate
(standard library, not part of this repository): star, question mark,
bracket classes with optional leading negation and with a closing bracket
in first position taken literally, all other characters literal. Fuel is
the pattern length; every token consumes at least one character. -/
def lexGlobF : Nat → List Char → List GlobTok
  | 0, _ => []
  | _, [] => []
  | fuel + 1, '*' :: rest => .star :: lexGlobF fuel rest
  | fuel + 1, '?' :: rest => .anyChar :: lexGlobF fuel rest
  | fuel + 1, '[' :: rest =>
    let body : Bool × List Char :=
      match rest with
      | '!' :: r2 => (true, r2)
      | _ => (false, rest)
    let scan :=
      match body.2 with
      | ']' :: r3 => (lexClassBody r3).map (fun r => ((']', ']') :: r.1, r.2))
      | _ => lexClassBody body.2
    match scan with
    | none => .lit '[' :: lexGlobF fuel rest
    | some (ranges, after) => .cls body.1 ranges :: lexGlobF fuel after
  | fuel + 1, c :: rest => .lit c :: lexGlobF fuel rest

/-- Lex a glob pattern. -/
def lexGlob (pat : List Char) : List GlobTok :=
  lexGlobF pat.length pat

/-- Membership of a character in the ranges of a bracket class. -/
def charInRanges (c : Char) : List (Char × Char) → Bool
  | [] => false
  | (a, b) :: rest => (a ≤ c && c ≤ b) || charInRanges c rest

/-- Matching of a token list against a string, the semantics of the regular
expression fnmatch.translate produces. Fueled so the kernel can evaluate
it; every recursive call lowers the token count plus character count by at
least one, so the fuel supplied by matchToks never runs out. -/
def matchToksF : Nat → List GlobTok → List Char → Bool
  | 0, _, _ => false
  | _ + 1, [], [] => true
  | _ + 1, [], _ :: _ => false
  | fuel + 1, .star :: ts, [] => matchToksF fuel ts []
  | fuel + 1, .star :: ts, c :: ss =>
    matchToksF fuel ts (c :: ss) || matchToksF fuel (.star :: ts) ss
  | _ + 1, .anyChar :: _, [] => false
  | fuel + 1, .anyChar :: ts, _ :: ss => matchToksF fuel ts ss
  | _ + 1, .cls _ _ :: _, [] => false
  | fuel + 1, .cls neg rs :: ts, c :: ss =>
    (charInRanges c rs != neg) && matchToksF fuel ts ss
  | _ + 1, .lit _ :: _, [] => false
  | fuel + 1, .lit p :: ts, c :: ss => (p == c) && matchToksF fuel ts ss

/-- Matching with sufficient fuel. -/
def matchToks (ts : List GlobTok) (s : List Char) : Bool :=
  matchToksF (ts.length + s.length + 1) ts s

/-- Modelled from the spec: Python fnmatch.fnmatch with identity case
normalization (the callers lowercase both arguments themselves). -/
def fnmatchCase (name pat : String) : Bool :=
  matchToks (lexGlob pat.toList) name.toList

/-- The final component of a path string, as PurePosixPath name: the last
slash-separated segment after dropping empty and single-dot segments. -/
def pyName (s : String) : String :=
  (splitSegments s).getLastD ""

/-- Index of the last dot of a character list, if any. -/
def lastDotIdx (cs : List Char) : Option Nat :=
  match cs.reverse.findIdx? (fun c => c == '.') with
  | none => none
  | some j => some (cs.length - 1 - j)

/-- PurePosixPath suffix: from the last dot of the name, provided that dot
is neither the first nor the last character of the name. -/
def pySuffix (s : String) : String :=
  let name := (pyName s).toList
  match lastDotIdx name with
  | some i => if 0 < i ∧ i < name.length - 1 then String.mk (name.drop i) else ""
  | none => ""

/-- PurePosixPath suffixes: empty for a name ending in a dot; otherwise
strip leading dots, split the rest on dots and prepend a dot to every
part after the first. -/
def pySuffixes (s : String) : List String :=
  let name := pyName s
  if name.toList.getLast? = some '.' then []
  else
    let stripped := name.toList.dropWhile (fun c => c == '.')
    (((splitOnChar '.' stripped).map String.mk).drop 1).map (fun t => "." ++ t)

/-- Strip leading dots from a string (Python lstrip with a dot). -/
def stripDots (s : String) : String :=
  String.mk (s.toList.dropWhile (fun c => c == '.'))

/-- Model of _matches_formats (src/byod_cli/validation.py): lowercase the
filename and the allowed formats, accept when the last extension or the
double extension (when at least two suffixes exist) is allowed. -/
def matchesFormats (filename : String) (formats : List String) : Bool :=
  let lower := pyLower filename
  let allowed := formats.map pyLower
  let ext := stripDots (pySuffix lower)
  if allowed.contains ext then true
  else
    let sfx := pySuffixes lower
    if 2 ≤ sfx.length then
      allowed.contains (stripDots (joinAll (sfx.drop (sfx.length - 2))))
    else false

/-- Model of _matches_pattern (src/byod_cli/validation.py): fnmatch on the
lowercased filename and pattern. -/
def matchesPattern (filename pat : String) : Bool :=
  fnmatchCase (pyLower filename) (pyLower pat)

/-- One plugin input descriptor, with the fields validation.py consults:
the type, the formats list (empty when absent) and the optional glob
pattern. -/
structure PluginInput where
  itype : String
  formats : List String
  pattern : Option String
  deriving DecidableEq, Repr

/-- Model of _file_matches_any_constraint (src/byod_cli/validation.py): a
constraint with a nonempty formats list matches via formats; otherwise a
truthy pattern matches via fnmatch; otherwise the input is unconstrained
and matches anything. Python truthiness makes an empty formats list and an
empty-string pattern fall through. -/
def fileMatchesAnyConstraint (filename : String) (constraints : List PluginInput) : Bool :=
  constraints.any (fun inp =>
    if inp.formats ≠ [] then matchesFormats filename inp.formats
    else
      match inp.pattern with
      | some p => if p ≠ "" then matchesPattern filename p else true
      | none => true)

/-- The apostrophe character, used by the rejection message. -/
def squote : String :=
  String.singleton (Char.ofNat 39)

/-- Model of _describe_accepted (src/byod_cli/validation.py): per
constraint, the dotted formats joined by a comma, or the pattern
description; parts joined by the word or; any file when nothing was
collected. -/
def describeAccepted (constraints : List PluginInput) : String :=
  let parts := constraints.foldr
    (fun inp acc =>
      if inp.formats ≠ [] then
        joinSep ", " (inp.formats.map (fun f => "." ++ f)) :: acc
      else
        match inp.pattern with
        | some p => if p ≠ "" then ("files matching " ++ p) :: acc else acc
        | none => acc)
    []
  if parts ≠ [] then joinSep " or " parts else "any file"

/-- The rejection message for one filename. -/
def rejectionMsg (fname : String) (constraints : List PluginInput) : String :=
  squote ++ fname ++ squote ++ " is not an accepted file type. Expected: "
    ++ describeAccepted constraints

/-- The filename loop of validate_files_for_plugin: filenames in order, a
rejection message appended for every filename matching no constraint. -/
def collectErrors (constraints : List PluginInput) : List String → List String
  | [] => []
  | f :: rest =>
    if fileMatchesAnyConstraint f constraints then collectErrors constraints rest
    else rejectionMsg f constraints :: collectErrors constraints rest

/-- The file-type constraints of a descriptor list. -/
def fileConstraintsOf (pluginInputs : List PluginInput) : List PluginInput :=
  pluginInputs.filter (fun inp => inp.itype == "file")

/-- Model of validate_files_for_plugin (src/byod_cli/validation.py): empty
result for an empty descriptor list or when no file-type constraints are
declared; otherwise one rejection message per non-matching filename. -/
def validateFilesForPlugin (filenames : List String) (pluginInputs : List PluginInput) :
    List String :=
  if pluginInputs = [] then []
  else
    let fileConstraints := fileConstraintsOf pluginInputs
    if fileConstraints = [] then []
    else collectErrors fileConstraints filenames

/-- The formats example descriptor list of the claim. -/
def inputsFormatsW : List PluginInput :=
  [⟨"file", ["txt", "csv"], none⟩]

/-- The pattern example descriptor list of the claim. -/
def inputsPatternW : List PluginInput :=
  [⟨"file", [], some "*.fastq*"⟩]

/-! Shared helper lemmas. -/

theorem takeLenAppend {α : Type} (l₁ l₂ : List α) : (l₁ ++ l₂).take l₁.length = l₁ := by
  induction l₁ with
  | nil => simp
  | cons a t ih => simp [ih]

theorem dropLenAppend {α : Type} (l₁ l₂ : List α) : (l₁ ++ l₂).drop l₁.length = l₂ := by
  induction l₁ with
  | nil => simp
  | cons a t ih => simp [ih]

theorem keyStream_length (key nonce : List Nat) (len : Nat) :
    (keyStream key nonce len).length = len := by
  simp [keyStream]

theorem tagBytes_length (key nonce : List Nat) (aad : Option (List Nat)) (ct : List Nat) :
    (tagBytes key nonce aad ct).length = 16 := by
  simp [tagBytes]

theorem xorBytes_length (xs ys : List Nat) :
    (xorBytes xs ys).length = min xs.length ys.length := by
  simp [xorBytes]

theorem xorBytes_cancel (p ks : List Nat) (h : p.length ≤ ks.length) :
    xorBytes (xorBytes p ks) ks = p := by
  induction p generalizing ks with
  | nil => simp [xorBytes]
  | cons a t ih =>
    cases ks with
    | nil => simp at h
    | cons b kt =>
      simp only [xorBytes, List.zipWith]
      have hx : a ^^^ b ^^^ b = a := by
        rw [Nat.xor_assoc, Nat.xor_self, Nat.xor_zero]
      have ht : t.length ≤ kt.length := by
        simpa [Nat.succ_le_succ_iff] using h
      simpa [hx] using ih kt ht

theorem aesgcmRoundtrip (key nonce pt : List Nat) (aad : Option (List Nat))
    (h8 : 8 ≤ nonce.length) (h128 : nonce.length ≤ 128) :
    aesgcmDecrypt key nonce (aesgcmEncrypt key nonce pt aad) aad = .ok pt := by
  have hks : (keyStream key nonce pt.length).length = pt.length := keyStream_length ..
  have hct : (xorBytes pt (keyStream key nonce pt.length)).length = pt.length := by
    rw [xorBytes_length, hks, Nat.min_self]
  set ct := xorBytes pt (keyStream key nonce pt.length) with hctdef
  set tg := tagBytes key nonce aad ct with htgdef
  have htg : tg.length = 16 := tagBytes_length ..
  have hlen : (ct ++ tg).length = pt.length + 16 := by
    rw [List.length_append, hct, htg]
  have hsub : (ct ++ tg).length - 16 = ct.length := by omega
  have htake : (ct ++ tg).take ((ct ++ tg).length - 16) = ct := by
    rw [hsub]; exact takeLenAppend ct tg
  have hdrop : (ct ++ tg).drop ((ct ++ tg).length - 16) = tg := by
    rw [hsub]; exact dropLenAppend ct tg
  show aesgcmDecrypt key nonce (ct ++ tg) aad = .ok pt
  rw [aesgcmDecrypt]
  rw [if_neg (by omega)]
  rw [if_neg (by omega)]
  simp only [htake, hdrop]
  rw [if_pos trivial]
  rw [hct]
  exact congrArg Except.ok (xorBytes_cancel pt (keyStream key nonce pt.length) (by omega))

/-- C7: AEAD round-trip for the job-payload codec: for every plaintext
(including the empty one) and every 256-bit key, decrypting the encryption
recovers the plaintext; the encryption emits the 12-byte nonce followed by
the ciphertext with its 16-byte tag, and decryption splits on the fixed
12-byte nonce. -/
theorem encryptData_decryptData_roundtrip (p k nonce : List Nat)
    (_hk : k.length = 32) (hn : nonce.length = 12) :
    decryptData (encryptData p k nonce) k = .ok p ∧
    (encryptData p k nonce).length = 12 + p.length + 16 ∧
    (encryptData p k nonce).take 12 = nonce := by
  have hb : (aesgcmEncrypt k nonce p none).length = p.length + 16 := by
    rw [aesgcmEncrypt]
    rw [List.length_append, tagBytes_length, xorBytes_length, keyStream_length,
      Nat.min_self]
  have htake : (nonce ++ aesgcmEncrypt k nonce p none).take nonceSize = nonce := by
    have : nonceSize = nonce.length := by rw [hn]; rfl
    rw [this]; exact takeLenAppend ..
  have hdrop : (nonce ++ aesgcmEncrypt k nonce p none).drop nonceSize =
      aesgcmEncrypt k nonce p none := by
    have : nonceSize = nonce.length := by rw [hn]; rfl
    rw [this]; exact dropLenAppend ..
  refine ⟨?_, ?_, ?_⟩
  · show aesgcmDecrypt k ((nonce ++ aesgcmEncrypt k nonce p none).take nonceSize)
      ((nonce ++ aesgcmEncrypt k nonce p none).drop nonceSize) none = .ok p
    rw [htake, hdrop]
    exact aesgcmRoundtrip k nonce p none (by omega) (by omega)
  · show (nonce ++ aesgcmEncrypt k nonce p none).length = 12 + p.length + 16
    rw [List.length_append, hb, hn]; omega
  · exact htake

/-- C7 witness: the round-trip at a concrete plaintext, 32-byte key and
12-byte nonce. -/
theorem encryptData_decryptData_roundtrip_witness :
    decryptData (encryptData [1, 2, 3] keyW nonceW) keyW = .ok [1, 2, 3] :=
  (encryptData_decryptData_roundtrip [1, 2, 3] keyW nonceW (by decide) (by decide)).1

/-- C10 (amended): the decrypt helper is total over malformed framing: the
slices are total, an input shorter than 8 bytes fails with the nonce-size
ValueError of the AESGCM parameter check, and an input of at least 8 bytes
either yields a plaintext or fails with the authentication error. -/
theorem decryptData_total_framing (e k : List Nat) :
    (e.length < 8 → decryptData e k = .error .invalidNonceSize) ∧
    (8 ≤ e.length →
      decryptData e k = .error .invalidTag ∨ ∃ p, decryptData e k = .ok p) := by
  have hlen : (e.take nonceSize).length = min nonceSize e.length := by
    simp
  constructor
  · intro h
    show aesgcmDecrypt k (e.take nonceSize) (e.drop nonceSize) none = _
    rw [aesgcmDecrypt, if_pos]
    left
    rw [hlen]
    show min 12 e.length < 8
    omega
  · intro h
    show aesgcmDecrypt k (e.take nonceSize) (e.drop nonceSize) none = _ ∨
      ∃ p, aesgcmDecrypt k (e.take nonceSize) (e.drop nonceSize) none = _
    rw [aesgcmDecrypt]
    rw [if_neg (by rw [hlen]; show ¬(min 12 e.length < 8 ∨ 128 < min 12 e.length); omega)]
    by_cases h16 : (e.drop nonceSize).length < 16
    · rw [if_pos h16]; left; rfl
    · rw [if_neg h16]
      by_cases htag : (e.drop nonceSize).drop ((e.drop nonceSize).length - 16) =
          tagBytes k (e.take nonceSize) none
            ((e.drop nonceSize).take ((e.drop nonceSize).length - 16))
      · rw [if_pos htag]; right; exact ⟨_, rfl⟩
      · rw [if_neg htag]; left; rfl

/-- C10 witness: the theorem applied to the empty input and to an 8-byte
input. -/
theorem decryptData_total_framing_witness :
    decryptData [] keyW = .error .invalidNonceSize ∧
    (decryptData [1, 2, 3, 4, 5, 6, 7, 8] keyW = .error .invalidTag ∨
      ∃ p, decryptData [1, 2, 3, 4, 5, 6, 7, 8] keyW = .ok p) :=
  ⟨(decryptData_total_framing [] keyW).1 (by decide),
   (decryptData_total_framing [1, 2, 3, 4, 5, 6, 7, 8] keyW).2 (by decide)⟩

/-- C10 counterexample: on the empty input the decrypt helper fails with
the nonce-size ValueError, which is a different error kind from the AEAD
authentication error, contradicting the claim that every failure is the
authentication error. -/
theorem decryptData_empty_input_counterexample :
    decryptData [] keyW = .error .invalidNonceSize ∧
    GcmError.invalidNonceSize ≠ GcmError.invalidTag := by
  decide


theorem resolveSegs_append_single (xs : List String) (acc : List String) (s : String)
    (h : s ≠ "..") :
    resolveSegs acc (xs ++ [s]) = resolveSegs acc xs ++ [s] := by
  induction xs generalizing acc with
  | nil => simp [resolveSegs, h]
  | cons a t ih =>
    by_cases ha : a = ".." <;> simp [resolveSegs, ha, ih]

theorem isPrefixOfAppend (l t : List String) : l.isPrefixOf (l ++ t) = true := by
  induction l with
  | nil => simp [List.isPrefixOf]
  | cons a l ih => simp [List.isPrefixOf, ih]

theorem rawWrite_inside (pt : List Nat) (out : AbsPath) :
    isRelativeTo (rawWrite pt out).path (resolvePath out) = true := by
  have hj : joinPath out "output.bin" = ⟨out.segs ++ ["output.bin"]⟩ := rfl
  show isRelativeTo (resolvePath (joinPath out "output.bin")) (resolvePath out) = true
  rw [hj]
  show (resolveSegs [] out.segs).isPrefixOf (resolveSegs [] (out.segs ++ ["output.bin"])) = true
  rw [resolveSegs_append_single out.segs [] "output.bin" (by decide)]
  exact isPrefixOfAppend ..

theorem extractLoop_cons (out : AbsPath) (m : TarMember) (rest : List TarMember) :
    extractLoop out (m :: rest) =
      if m.name = manifestName then extractLoop out rest
      else
        if isRelativeTo (resolvePath (joinPath out m.name)) (resolvePath out) = true then
          (resolvePath (joinPath out m.name) :: (extractLoop out rest).1,
           m.name :: (extractLoop out rest).2.1, (extractLoop out rest).2.2)
        else ([], [], false) := rfl

theorem extractResults_raw (pt : List Nat) (parsed : TarParse) (out : AbsPath)
    (h : gzipMagic pt = false) :
    extractResults pt parsed out = ⟨[rawWrite pt out], ["output.bin"]⟩ := by
  cases parsed <;> simp [extractResults, h]

theorem extractResults_parseErr (pt : List Nat) (out : AbsPath) :
    extractResults pt TarParse.parseError out = ⟨[rawWrite pt out], ["output.bin"]⟩ := by
  by_cases h : gzipMagic pt = true <;> simp [extractResults, h]

theorem extractResults_members (pt : List Nat) (out : AbsPath) (ms : List TarMember)
    (h : gzipMagic pt = true) :
    extractResults pt (TarParse.members ms) out =
      if (extractLoop out ms).2.2 = true then
        ⟨(extractLoop out ms).1.map (fun p => ⟨p, none⟩), (extractLoop out ms).2.1⟩
      else
        ⟨(extractLoop out ms).1.map (fun p => ⟨p, none⟩) ++ [rawWrite pt out],
         (extractLoop out ms).2.1 ++ ["output.bin"]⟩ := by
  simp [extractResults, h]

theorem extractLoop_writes_inside (out : AbsPath) (ms : List TarMember) :
    ∀ p ∈ (extractLoop out ms).1, isRelativeTo p (resolvePath out) = true := by
  induction ms with
  | nil => intro p hp; simp [extractLoop] at hp
  | cons m rest ih =>
    intro p hp
    rw [extractLoop_cons] at hp
    by_cases h1 : m.name = manifestName
    · rw [if_pos h1] at hp
      exact ih p hp
    · rw [if_neg h1] at hp
      by_cases h2 : isRelativeTo (resolvePath (joinPath out m.name)) (resolvePath out) = true
      · rw [if_pos h2] at hp
        rcases List.mem_cons.mp hp with hEq | hMem
        · rw [hEq]; exact h2
        · exact ih p hMem
      · rw [if_neg h2] at hp
        simp at hp

theorem extractLoop_prefix_then_bad (out : AbsPath) (good : List TarMember)
    (bad : TarMember) (rest : List TarMember)
    (hgood : ∀ m ∈ good, m.name = manifestName ∨
      isRelativeTo (resolvePath (joinPath out m.name)) (resolvePath out) = true)
    (hbadname : bad.name ≠ manifestName)
    (hesc : isRelativeTo (resolvePath (joinPath out bad.name)) (resolvePath out) = false) :
    extractLoop out (good ++ bad :: rest) =
      ((extractLoop out good).1, (extractLoop out good).2.1, false) := by
  induction good with
  | nil =>
    show extractLoop out (bad :: rest) = _
    rw [extractLoop_cons, if_neg hbadname, if_neg (by simp [hesc])]
    rfl
  | cons m t ih =>
    have ht : ∀ x ∈ t, x.name = manifestName ∨
        isRelativeTo (resolvePath (joinPath out x.name)) (resolvePath out) = true :=
      fun x hx => hgood x (List.mem_cons_of_mem m hx)
    have hm := hgood m (List.mem_cons_self m t)
    show extractLoop out (m :: (t ++ bad :: rest)) = _
    by_cases h1 : m.name = manifestName
    · rw [extractLoop_cons, if_pos h1, ih ht, extractLoop_cons, if_pos h1]
    · have h2 : isRelativeTo (resolvePath (joinPath out m.name)) (resolvePath out) = true := by
        rcases hm with hm1 | hm2
        · exact absurd hm1 h1
        · exact hm2
      rw [extractLoop_cons, if_neg h1, if_pos h2, ih ht,
        extractLoop_cons, if_neg h1, if_pos h2]

/-- C2: path-traversal guard: every write of the extraction routine lands
inside the destination directory, for all archive contents; in particular
an archive member whose resolved path falls outside the destination is
never written. -/
theorem extraction_rejects_escaping_members (plaintext : List Nat) (parsed : TarParse)
    (output : AbsPath) :
    (∀ w ∈ (extractResults plaintext parsed output).writes,
      isRelativeTo w.path (resolvePath output) = true) ∧
    (∀ ms m, parsed = TarParse.members ms → m ∈ ms →
      isRelativeTo (resolvePath (joinPath output m.name)) (resolvePath output) = false →
      resolvePath (joinPath output m.name) ∉
        (extractResults plaintext parsed output).writes.map FileWrite.path) := by
  have main : ∀ w ∈ (extractResults plaintext parsed output).writes,
      isRelativeTo w.path (resolvePath output) = true := by
    intro w hw
    by_cases hg : gzipMagic plaintext = true
    · cases parsed with
      | parseError =>
        rw [extractResults_parseErr] at hw
        simp only [List.mem_singleton] at hw
        rw [hw]; exact rawWrite_inside ..
      | members ms =>
        rw [extractResults_members plaintext output ms hg] at hw
        by_cases hok : (extractLoop output ms).2.2 = true
        · rw [if_pos hok] at hw
          simp only [List.mem_map] at hw
          obtain ⟨p, hp, hpw⟩ := hw
          rw [← hpw]
          exact extractLoop_writes_inside output ms p hp
        · rw [if_neg hok] at hw
          simp only [List.mem_append, List.mem_map, List.mem_singleton] at hw
          rcases hw with ⟨p, hp, hpw⟩ | hraw
          · rw [← hpw]
            exact extractLoop_writes_inside output ms p hp
          · rw [hraw]; exact rawWrite_inside ..
    · rw [extractResults_raw plaintext parsed output (by simpa using hg)] at hw
      simp only [List.mem_singleton] at hw
      rw [hw]; exact rawWrite_inside ..
  refine ⟨main, ?_⟩
  intro ms m _ _ hesc hmem
  simp only [List.mem_map] at hmem
  obtain ⟨w, hw, hwp⟩ := hmem
  have hin := main w hw
  rw [hwp, hesc] at hin
  exact Bool.false_ne_true hin

/-- C2 witness: the theorem applied to a concrete archive holding an
escaping member: the single write performed (the raw fallback file) is
inside the destination, and the escaping member path was never written. -/
theorem extraction_rejects_escaping_members_witness :
    isRelativeTo (rawWrite [31, 139, 0] outW).path (resolvePath outW) = true ∧
    resolvePath (joinPath outW "../evil") ∉
      (extractResults [31, 139, 0] (TarParse.members [⟨"../evil"⟩]) outW).writes.map
        FileWrite.path :=
  ⟨(extraction_rejects_escaping_members [31, 139, 0] (TarParse.members [⟨"../evil"⟩])
      outW).1 (rawWrite [31, 139, 0] outW) (by decide),
   (extraction_rejects_escaping_members [31, 139, 0] (TarParse.members [⟨"../evil"⟩])
      outW).2 [⟨"../evil"⟩] ⟨"../evil"⟩ rfl (by decide) (by decide)⟩

/-- C5 (amended): the archive-extraction branch is taken exactly when the
plaintext is longer than 2 bytes and begins with the gzip magic bytes
1f 8b; every other plaintext, including one that consists of exactly the
two magic bytes, is written as the single raw file output.bin; when the
branch is taken and the archive extracts cleanly the returned files are
the archive member names. -/
theorem gzipSniff_length_guarded (plaintext : List Nat) (parsed : TarParse)
    (output : AbsPath) :
    (gzipMagic plaintext = true ↔ 2 < plaintext.length ∧ plaintext.take 2 = [31, 139]) ∧
    (gzipMagic plaintext = false →
      extractResults plaintext parsed output =
        ⟨[rawWrite plaintext output], ["output.bin"]⟩) ∧
    (gzipMagic plaintext = true → ∀ ms, parsed = TarParse.members ms →
      (extractLoop output ms).2.2 = true →
      (extractResults plaintext parsed output).files = (extractLoop output ms).2.1) := by
  refine ⟨?_, ?_, ?_⟩
  · rw [gzipMagic]
    simp
  · intro hg
    exact extractResults_raw plaintext parsed output hg
  · intro hg ms hparse hok
    subst hparse
    rw [extractResults_members plaintext output ms hg, if_pos hok]

/-- C5 witness: the theorem applied to a concrete non-magic plaintext and
to a concrete magic plaintext with a clean one-member archive. -/
theorem gzipSniff_length_guarded_witness :
    extractResults [0, 1, 2] TarParse.parseError outW =
      ⟨[rawWrite [0, 1, 2] outW], ["output.bin"]⟩ ∧
    (extractResults [31, 139, 0] (TarParse.members [⟨"res.txt"⟩]) outW).files =
      (extractLoop outW [⟨"res.txt"⟩]).2.1 :=
  ⟨(gzipSniff_length_guarded [0, 1, 2] TarParse.parseError outW).2.1 (by decide),
   (gzipSniff_length_guarded [31, 139, 0] (TarParse.members [⟨"res.txt"⟩]) outW).2.2
     (by decide) [⟨"res.txt"⟩] rfl (by decide)⟩

/-- C5 counterexample: the plaintext consisting of exactly the two gzip
magic bytes begins with the magic prefix, yet the routine writes it as one
raw file instead of treating it as an archive: the decision is not made
solely by the magic prefix but also by the length guard. -/
theorem gzipSniff_counterexample :
    [31, 139].take 2 = [31, 139] ∧
    gzipMagic [31, 139] = false ∧
    extractResults [31, 139] (TarParse.members [⟨"res.txt"⟩]) outW =
      ⟨[rawWrite [31, 139] outW], ["output.bin"]⟩ := by
  decide

/-- C9: a TarError inside the archive branch, including the path-traversal
rejection itself, is caught: the whole plaintext is then written as the
raw file output.bin inside the destination, the members extracted before
the error keep their writes, the returned file list is those member names
followed by output.bin, and the routine returns normally; a TarError at
open time likewise falls back to the raw file. -/
theorem tarError_caught_raw_fallback (plaintext : List Nat) (output : AbsPath)
    (good : List TarMember) (bad : TarMember) (rest : List TarMember)
    (hmagic : gzipMagic plaintext = true)
    (hgood : ∀ m ∈ good, m.name = manifestName ∨
      isRelativeTo (resolvePath (joinPath output m.name)) (resolvePath output) = true)
    (hbadname : bad.name ≠ manifestName)
    (hesc : isRelativeTo (resolvePath (joinPath output bad.name)) (resolvePath output)
      = false) :
    extractResults plaintext (TarParse.members (good ++ bad :: rest)) output =
      ⟨(extractLoop output good).1.map (fun p => ⟨p, none⟩)
        ++ [rawWrite plaintext output],
       (extractLoop output good).2.1 ++ ["output.bin"]⟩ ∧
    extractResults plaintext TarParse.parseError output =
      ⟨[rawWrite plaintext output], ["output.bin"]⟩ := by
  constructor
  · rw [extractResults_members _ _ _ hmagic]
    rw [extractLoop_prefix_then_bad output good bad rest hgood hbadname hesc]
    simp
  · exact extractResults_parseErr ..

/-- C9 witness: the theorem applied to a concrete archive with one good
member followed by an escaping member. -/
theorem tarError_caught_raw_fallback_witness :
    extractResults [31, 139, 0] (TarParse.members [⟨"good.txt"⟩, ⟨"../evil"⟩]) outW =
      ⟨(extractLoop outW [⟨"good.txt"⟩]).1.map (fun p => ⟨p, none⟩)
        ++ [rawWrite [31, 139, 0] outW],
       (extractLoop outW [⟨"good.txt"⟩]).2.1 ++ ["output.bin"]⟩ :=
  (tarError_caught_raw_fallback [31, 139, 0] outW [⟨"good.txt"⟩] ⟨"../evil"⟩ []
    (by decide) (by decide) (by decide) (by decide)).1

/-- C1 (amended): the get command performs no job-status check: its outcome
is the same whatever status the platform would report for the job; the
status gate exists only in the companion UI streaming route, not here. -/
theorem getCommand_ignores_job_status (env : GetEnv) (s : String) (output : AbsPath) :
    byodGet { env with jobStatus := s } output = byodGet env output := rfl

/-- C1 counterexample: a job whose reported status is processing (not
completed) with retrievable artifacts: the get command still downloads,
decrypts and extracts, producing an output file, contradicting the claim
that it refuses to proceed and produces no output for any status other
than completed. -/
theorem getCommand_processing_counterexample :
    envProcessing.jobStatus = "processing" ∧
    envProcessing.jobStatus ≠ "completed" ∧
    byodGet envProcessing outW =
      .done ["output.bin"] [rawWrite [1, 2, 3] outW] := by
  decide

/-- C3: wrapping binds the DEK to the key identifier via associated data:
unwrapping with the same master-key bytes but a different identifier fails
with the authentication error, and unwrapping with the identifier that was
used returns the original DEK. -/
theorem wrapDek_binds_key_identifier (masterKey dek nonce : List Nat) (id1 id2 : String)
    (_hdek : dek.length = 32) (hne : id1 ≠ id2) :
    unwrapDek masterKey id2 (wrapDek masterKey id1 dek nonce).1
      (wrapDek masterKey id1 dek nonce).2 = .error .invalidTag ∧
    unwrapDek masterKey id1 (wrapDek masterKey id1 dek nonce).1
      (wrapDek masterKey id1 dek nonce).2 = .ok dek := by
  constructor
  · simp [unwrapDek, wrapDek, idealEncrypt, idealDecrypt, hne]
  · simp [unwrapDek, wrapDek, idealEncrypt, idealDecrypt]

/-- C3 witness: the theorem at a concrete 32-byte DEK, master key, nonce
and the two distinct identifiers kms-key-a and kms-key-b. -/
theorem wrapDek_binds_key_identifier_witness :
    unwrapDek keyW "kms-key-b" (wrapDek keyW "kms-key-a" keyW nonceW).1
      (wrapDek keyW "kms-key-a" keyW nonceW).2 = .error .invalidTag ∧
    unwrapDek keyW "kms-key-a" (wrapDek keyW "kms-key-a" keyW nonceW).1
      (wrapDek keyW "kms-key-a" keyW nonceW).2 = .ok keyW :=
  wrapDek_binds_key_identifier keyW keyW nonceW "kms-key-a" "kms-key-b"
    (by decide) (by decide)

/-- C6 (amended): per-file decryption with a truthy (non-empty) declared
checksum recomputes the sha256 hexdigest over the recovered plaintext and
raises the checksum-mismatch error exactly when it disagrees; the
checksum-mismatch error is a distinct kind from the authentication error;
with verification disabled (no declared checksum) no comparison occurs and
no checksum-mismatch error can arise. The empty-string declared checksum
is falsy in Python and skips verification, which is what the amendment
records. -/
theorem decryptFile_checksum_verification (dek : List Nat) (outputName : String)
    (f : EncFile) (s : String) (pt : List Nat)
    (hdec : idealDecrypt dek f.nonce f.body (some outputName) = .ok pt)
    (hs : s ≠ "") :
    (sha256Hex pt ≠ s →
      decryptFile dek outputName f (some s) =
        .error (.checksumMismatch s (sha256Hex pt))) ∧
    (sha256Hex pt = s → decryptFile dek outputName f (some s) = .ok pt) ∧
    (∀ e a, DecryptFileError.checksumMismatch e a ≠ DecryptFileError.authError) ∧
    decryptFile dek outputName f none = .ok pt ∧
    (∀ (k : List Nat) (nm : String) (g : EncFile) (e a : String),
      decryptFile k nm g none ≠ .error (.checksumMismatch e a)) := by
  refine ⟨?_, ?_, ?_, ?_, ?_⟩
  · intro hne
    simp [decryptFile, hdec, pyTruthy, hs, hne]
  · intro heq
    simp [decryptFile, hdec, pyTruthy, hs, heq]
  · intro e a hcontra
    cases hcontra
  · simp [decryptFile, hdec, pyTruthy]
  · intro k nm g e a hcontra
    cases hd : idealDecrypt k g.nonce g.body (some nm) with
    | error ge => simp [decryptFile, hd] at hcontra
    | ok pt2 => simp [decryptFile, hd, pyTruthy] at hcontra

/-- C6 witness: the theorem at a concrete file whose declared checksum is
a wrong non-empty string. -/
theorem decryptFile_checksum_verification_witness :
    sha256Hex [] ≠ "deadbeef" ∧
    decryptFile keyW "a" ⟨nonceW, idealEncrypt keyW nonceW [] (some "a")⟩
      (some "deadbeef") = .error (.checksumMismatch "deadbeef" (sha256Hex [])) :=
  ⟨by decide,
   (decryptFile_checksum_verification keyW "a"
     ⟨nonceW, idealEncrypt keyW nonceW [] (some "a")⟩ "deadbeef" []
     (by decide) (by decide)).1 (by decide)⟩

/-- C6 counterexample: verification enabled with a hand-corrupted empty
declared checksum: the recomputed digest of the empty plaintext disagrees
with the declared value, yet decrypt_file returns the plaintext without
raising the checksum-mismatch error, because Python truthiness treats the
empty string like a missing checksum. -/
theorem decryptFile_empty_checksum_counterexample :
    sha256Hex [] ≠ "" ∧
    decryptFile keyW "a" ⟨nonceW, idealEncrypt keyW nonceW [] (some "a")⟩
      (some "") = .ok [] := by
  decide

theorem updateStatements_build (acct role : String) (oldVals newVals : List String) :
    updateStatements newVals (buildKmsKeyPolicy acct role oldVals) =
      (buildKmsKeyPolicy acct role newVals, true, some (some (.multi oldVals))) := rfl

theorem updateStatements_noSid (newVals : List String) (policy : List KmsStatement)
    (h : ∀ st ∈ policy, st.sid ≠ attestationSid) :
    (updateStatements newVals policy).2.1 = false := by
  induction policy with
  | nil => rfl
  | cons st rest ih =>
    have h1 := h st (List.mem_cons_self st rest)
    have ht : ∀ x ∈ rest, x.sid ≠ attestationSid :=
      fun x hx => h x (List.mem_cons_of_mem st hx)
    simp [updateStatements, h1, ih ht]

/-- C4: the policy update is targeted and idempotent: on the four-statement
policy the tool builds, the update locates the attested-decrypt statement
by its fixed Sid and the written policy is exactly the built policy with
the new measurement list, so the other three statements are unchanged;
when the new measurement set equals the old one as an unordered set the
outcome is the no-write already-up-to-date report; a policy without the
Sid is the hard statement-not-found error; and the fetched measurement
list the command passes in is never empty. -/
theorem updatePolicy_targeted_idempotent (acct role : String) (oldVals newVals : List String)
    (hnew : newVals ≠ []) :
    (sameSet oldVals newVals = true →
      updatePolicy (buildKmsKeyPolicy acct role oldVals) newVals = .alreadyUpToDate) ∧
    (sameSet oldVals newVals = false →
      updatePolicy (buildKmsKeyPolicy acct role oldVals) newVals =
        .wrote (buildKmsKeyPolicy acct role newVals)) ∧
    (buildKmsKeyPolicy acct role newVals).take 3 =
      (buildKmsKeyPolicy acct role oldVals).take 3 ∧
    (buildKmsKeyPolicy acct role newVals).getLast? =
      some ⟨attestationSid, "Allow", role, ["kms:Decrypt"], "*", none,
        some (some (.multi newVals))⟩ ∧
    (∀ policy : List KmsStatement, (∀ st ∈ policy, st.sid ≠ attestationSid) →
      updatePolicy policy newVals = .statementNotFound) ∧
    (∀ listed fallback, fetchPcr0Values listed fallback ≠ []) := by
  refine ⟨?_, ?_, rfl, rfl, ?_, ?_⟩
  · intro hsame
    have hmem : ∀ y ∈ newVals, y ∈ oldVals := by
      have := (Bool.and_eq_true _ _).mp hsame
      simpa using this.2
    have hold : oldVals ≠ [] := by
      cases newVals with
      | nil => exact absurd rfl hnew
      | cons y ys =>
        exact List.ne_nil_of_mem (hmem y (List.mem_cons_self y ys))
    simp only [updatePolicy, updateStatements_build]
    rw [if_neg (by simp)]
    show (if oldVals ≠ [] ∧ sameSet oldVals newVals = true
      then PolicyUpdateOutcome.alreadyUpToDate
      else .wrote (buildKmsKeyPolicy acct role newVals)) = .alreadyUpToDate
    rw [if_pos ⟨hold, hsame⟩]
  · intro hsame
    simp only [updatePolicy, updateStatements_build]
    rw [if_neg (by simp)]
    show (if oldVals ≠ [] ∧ sameSet oldVals newVals = true
      then PolicyUpdateOutcome.alreadyUpToDate
      else .wrote (buildKmsKeyPolicy acct role newVals)) = _
    rw [if_neg (by rw [hsame]; exact fun hc => Bool.false_ne_true hc.2)]
  · intro policy h
    have hflag := updateStatements_noSid newVals policy h
    simp [updatePolicy, hflag]
  · intro listed fallback
    cases listed with
    | none => simp [fetchPcr0Values]
    | some l =>
      by_cases hl : l = [] <;> simp [fetchPcr0Values, hl]

/-- C4 witness: the theorem at a concrete account, role and measurement
lists: the same set in a different order reports already up to date, and a
changed set writes the rebuilt policy. -/
theorem updatePolicy_targeted_idempotent_witness :
    updatePolicy (buildKmsKeyPolicy "111122223333" "arn:role" ["p1", "p2"])
      ["p2", "p1"] = .alreadyUpToDate ∧
    updatePolicy (buildKmsKeyPolicy "111122223333" "arn:role" ["p1", "p2"])
      ["p3"] = .wrote (buildKmsKeyPolicy "111122223333" "arn:role" ["p3"]) :=
  ⟨(updatePolicy_targeted_idempotent "111122223333" "arn:role" ["p1", "p2"]
      ["p2", "p1"] (by decide)).1 (by decide),
   (updatePolicy_targeted_idempotent "111122223333" "arn:role" ["p1", "p2"]
      ["p3"] (by decide)).2.1 (by decide)⟩

theorem collectErrors_eq (cs : List PluginInput) (fs : List String) :
    collectErrors cs fs =
      (fs.filter (fun f => !(fileMatchesAnyConstraint f cs))).map
        (fun f => rejectionMsg f cs) := by
  induction fs with
  | nil => rfl
  | cons f rest ih =>
    by_cases h : fileMatchesAnyConstraint f cs = true
    · simp [collectErrors, h, ih]
    · simp only [Bool.not_eq_true] at h
      simp [collectErrors, h, ih]

/-- C8: plugin file-type validation accepts a filename exactly when it
matches at least one declared file-input constraint (the whole error list
is the rejection message of every non-matching filename, in order);
matching is case-insensitive and handles compound extensions, as the
claimed concrete examples show; and every rejection message carries the
rejected filename and the description of all accepted forms. -/
theorem plugin_validation_accepts_iff (filenames : List String) (inputs : List PluginInput)
    (h : fileConstraintsOf inputs ≠ []) :
    (validateFilesForPlugin filenames inputs =
      (filenames.filter
        (fun f => !(fileMatchesAnyConstraint f (fileConstraintsOf inputs)))).map
        (fun f => rejectionMsg f (fileConstraintsOf inputs))) ∧
    (∀ f, validateFilesForPlugin [f] inputs =
      if fileMatchesAnyConstraint f (fileConstraintsOf inputs) = true then []
      else [rejectionMsg f (fileConstraintsOf inputs)]) ∧
    (∀ f cs, rejectionMsg f cs =
      squote ++ f ++ squote ++ " is not an accepted file type. Expected: "
        ++ describeAccepted cs) ∧
    validateFilesForPlugin ["a.TXT"] inputsFormatsW = [] ∧
    validateFilesForPlugin ["a.fastq"] inputsFormatsW =
      [squote ++ "a.fastq" ++ squote
        ++ " is not an accepted file type. Expected: .txt, .csv"] ∧
    validateFilesForPlugin ["sample.fastq.gz"] inputsPatternW = [] ∧
    validateFilesForPlugin ["sample.csv"] inputsPatternW =
      [squote ++ "sample.csv" ++ squote
        ++ " is not an accepted file type. Expected: files matching *.fastq*"] := by
  have hne : inputs ≠ [] := by
    intro hnil
    exact h (by rw [hnil]; rfl)
  have hmain : validateFilesForPlugin filenames inputs =
      collectErrors (fileConstraintsOf inputs) filenames := by
    rw [validateFilesForPlugin]
    rw [if_neg hne]
    rw [if_neg h]
  refine ⟨?_, ?_, fun f cs => rfl, by decide, by decide, by decide, by decide⟩
  · rw [hmain, collectErrors_eq]
  · intro f
    have hone : validateFilesForPlugin [f] inputs =
        collectErrors (fileConstraintsOf inputs) [f] := by
      rw [validateFilesForPlugin]
      rw [if_neg hne]
      rw [if_neg h]
    rw [hone]
    by_cases hf : fileMatchesAnyConstraint f (fileConstraintsOf inputs) = true
    · simp [collectErrors, hf]
    · simp only [Bool.not_eq_true] at hf
      simp [collectErrors, hf]

/-- C8 witness: the theorem applied to the claimed concrete examples. -/
theorem plugin_validation_accepts_iff_witness :
    validateFilesForPlugin ["a.TXT"] inputsFormatsW = [] ∧
    validateFilesForPlugin ["sample.fastq.gz"] inputsPatternW = [] :=
  ⟨(plugin_validation_accepts_iff ["a.TXT"] inputsFormatsW (by decide)).2.2.2.1,
   (plugin_validation_accepts_iff ["sample.fastq.gz"] inputsPatternW
     (by decide)).2.2.2.2.2.1⟩
